import Mathlib

/-
Shallow embedding of the MailNotifierBot repository (src/bot.py) and proofs
about the claims of its specification.

Strings are modelled as `List Char`.  The recursive Python function `split`
is embedded with an explicit fuel argument: `split fuel text maxLen = none`
means the Python recursion has not terminated within `fuel` nested calls
(for every fuel, in particular, it never terminates).
-/

/- `message_breakers = ["\n", ", "]` (bot.py line 17). -/
def nlSep : List Char := ['\n']

def commaSpaceSep : List Char := [',', ' ']

def message_breakers : List (List Char) := [nlSep, commaSpaceSep]

/- Whether `sep` occurs in `text` starting at index `i`
(the whole separator must fit inside the text). -/
def matchAt (sep text : List Char) (i : Nat) : Bool :=
  decide ((text.drop i).take sep.length = sep)

/- Scan indices `s, s-1, ..., 0` for the rightmost occurrence of `sep`. -/
def rfindFrom (sep text : List Char) : Nat → Int
  | 0 => if matchAt sep text 0 then (0 : Int) else -1
  | s+1 => if matchAt sep text (s+1) then ((s+1 : Nat) : Int) else rfindFrom sep text s

/- Python `text.rfind(sep, 0, e)`: highest index `i` such that `sep` is
contained in `text[0:e]` starting at `i`; `-1` when there is none.  An
occurrence inside the window needs `i + sep.length ≤ e`, so the scan starts
at `e - sep.length`. -/
def rfind (sep text : List Char) (e : Nat) : Int :=
  if sep.length ≤ e then rfindFrom sep text (e - sep.length) else -1

/- bot.py lines 20-32.
`last_index = max(map(lambda sep: text.rfind(sep, 0, max_message_length), message_breakers))`
is `max (rfind nlSep ..) (rfind commaSpaceSep ..)`.
When `last_index` is a non-negative index `i`, Python slicing gives
`good_part = text[:i]` (`take i`) and `bad_part = text[i+1:]` (`drop (i+1)`).
When `last_index = -1` (no marker found), Python's negative-index slicing
gives `good_part = text[:-1]` (`take (length-1)`) and `bad_part = text[0:]`,
i.e. the whole `text` itself, on which the function recurses. -/
def split : Nat → List Char → Nat → Option (List (List Char))
  | 0, _, _ => none
  | fuel+1, text, maxLen =>
    if text.length ≥ maxLen then
      match max (rfind nlSep text maxLen) (rfind commaSpaceSep text maxLen) with
      | Int.ofNat lastIndex =>
        (split fuel (text.drop (lastIndex+1)) maxLen).map (fun r => text.take lastIndex :: r)
      | Int.negSucc _ =>
        (split fuel text maxLen).map (fun r => text.take (text.length - 1) :: r)
    else some [text]

/- Re-insert one cut character between consecutive segments. -/
def interleave : List (List Char) → List Char → List Char
  | [], _ => []
  | seg :: _, [] => seg
  | seg :: rest, c :: cs => seg ++ c :: interleave rest cs

lemma matchAt_eq {sep text : List Char} {i : Nat} :
    matchAt sep text i = true ↔ (text.drop i).take sep.length = sep := by
  simp [matchAt]

lemma matchAt_bound {sep text : List Char} {i : Nat} (h : matchAt sep text i = true)
    (hsep : sep ≠ []) : i < text.length ∧ i + sep.length ≤ text.length := by
  rw [matchAt_eq] at h
  have hlen := congrArg List.length h
  simp only [List.length_take, List.length_drop] at hlen
  have hpos : 0 < sep.length := List.length_pos.mpr hsep
  omega

lemma matchAt_head {sep text : List Char} {i : Nat} {c : Char} {rest : List Char}
    (hsep : sep = c :: rest) (h : matchAt sep text i = true) :
    ∃ hi : i < text.length, text.get ⟨i, hi⟩ = c := by
  obtain ⟨hi, -⟩ := matchAt_bound h (by simp [hsep])
  rw [matchAt_eq, hsep] at h
  have hdrop : text.drop i = text.get ⟨i, hi⟩ :: text.drop (i+1) := by
    rw [List.get_eq_getElem]
    exact List.drop_eq_getElem_cons hi
  rw [hdrop, List.length_cons, List.take_succ_cons] at h
  exact ⟨hi, (List.cons.injEq _ _ _ _).mp h |>.1⟩

lemma rfindFrom_shape (sep text : List Char) : ∀ s : Nat,
    rfindFrom sep text s = -1 ∨
      ∃ i : Nat, rfindFrom sep text s = Int.ofNat i ∧ i ≤ s ∧ matchAt sep text i = true := by
  intro s
  induction s with
  | zero =>
    by_cases h : matchAt sep text 0 = true
    · exact Or.inr ⟨0, by simp [rfindFrom, h], Nat.le_refl 0, h⟩
    · simp only [rfindFrom]
      rw [if_neg h]
      exact Or.inl rfl
  | succ n ih =>
    by_cases h : matchAt sep text (n+1) = true
    · refine Or.inr ⟨n+1, ?_, Nat.le_refl _, h⟩
      simp only [rfindFrom]
      rw [if_pos h]
      rfl
    · have hstep : rfindFrom sep text (n+1) = rfindFrom sep text n := by
        simp only [rfindFrom]
        rw [if_neg h]
      rcases ih with h1 | ⟨i, hi, hle, hm⟩
      · exact Or.inl (hstep.trans h1)
      · exact Or.inr ⟨i, hstep.trans hi, Nat.le_succ_of_le hle, hm⟩

lemma rfind_shape (sep text : List Char) (e : Nat) :
    rfind sep text e = -1 ∨
      ∃ i : Nat, rfind sep text e = Int.ofNat i ∧ i + sep.length ≤ e ∧
        matchAt sep text i = true := by
  unfold rfind
  by_cases h : sep.length ≤ e
  · rw [if_pos h]
    rcases rfindFrom_shape sep text (e - sep.length) with h1 | ⟨i, hi, hle, hm⟩
    · exact Or.inl h1
    · exact Or.inr ⟨i, hi, by omega, hm⟩
  · rw [if_neg h]
    exact Or.inl rfl

/- When the winning `rfind` result is a genuine index `i`, that index is
inside the window, inside the text, and a break marker starts there. -/
lemma max_rfind_ofNat {text : List Char} {e i : Nat}
    (h : max (rfind nlSep text e) (rfind commaSpaceSep text e) = Int.ofNat i) :
    i + 1 ≤ e ∧ ∃ hi : i < text.length,
      text.get ⟨i, hi⟩ = '\n' ∨ text.get ⟨i, hi⟩ = ',' := by
  rcases max_choice (rfind nlSep text e) (rfind commaSpaceSep text e) with hc | hc <;>
    rw [hc] at h
  · rcases rfind_shape nlSep text e with h1 | ⟨j, hj, hle, hm⟩
    · rw [h1] at h
      rw [show Int.ofNat i = (i : Int) from rfl] at h
      omega
    · rw [hj] at h
      have hji : j = i := Int.ofNat.inj h
      rw [hji] at hle hm
      obtain ⟨hi, hget⟩ := matchAt_head rfl hm
      exact ⟨by simpa [nlSep] using hle, hi, Or.inl hget⟩
  · rcases rfind_shape commaSpaceSep text e with h1 | ⟨j, hj, hle, hm⟩
    · rw [h1] at h
      rw [show Int.ofNat i = (i : Int) from rfl] at h
      omega
    · rw [hj] at h
      have hji : j = i := Int.ofNat.inj h
      rw [hji] at hle hm
      obtain ⟨hi, hget⟩ := matchAt_head rfl hm
      have hle' : i + 2 ≤ e := by simpa [commaSpaceSep] using hle
      exact ⟨by omega, hi, Or.inr hget⟩

lemma int_shape (m : Int) :
    (∃ i : Nat, m = Int.ofNat i) ∨ (∃ k : Nat, m = Int.negSucc k) := by
  cases m with
  | ofNat i => exact Or.inl ⟨i, rfl⟩
  | negSucc k => exact Or.inr ⟨k, rfl⟩

/- When no break marker is found (`last_index = -1`) and the text is at
least `maxLen` long, the recursion passes the very same text to itself,
so `split` diverges: it returns `none` for every fuel. -/
lemma split_stuck {text : List Char} {maxLen : Nat}
    (hlen : text.length ≥ maxLen)
    (hmax : max (rfind nlSep text maxLen) (rfind commaSpaceSep text maxLen) = Int.negSucc 0) :
    ∀ fuel, split fuel text maxLen = none := by
  intro fuel
  induction fuel with
  | zero => rfl
  | succ n ih =>
    show split (n+1) text maxLen = none
    simp only [split]
    rw [if_pos hlen, hmax]
    show (split n text maxLen).map (fun r => text.take (text.length - 1) :: r) = none
    rw [ih]
    rfl

/- Case analysis for a successful call of `split` at positive fuel. -/
lemma split_succ_some {fuel : Nat} {text : List Char} {maxLen : Nat}
    {segs : List (List Char)} (h : split (fuel+1) text maxLen = some segs) :
    (text.length < maxLen ∧ segs = [text]) ∨
    (maxLen ≤ text.length ∧ ∃ i rest,
      max (rfind nlSep text maxLen) (rfind commaSpaceSep text maxLen) = Int.ofNat i ∧
      split fuel (text.drop (i+1)) maxLen = some rest ∧ segs = text.take i :: rest) := by
  simp only [split] at h
  by_cases hlen : text.length ≥ maxLen
  · rw [if_pos hlen] at h
    right
    refine ⟨hlen, ?_⟩
    rcases int_shape (max (rfind nlSep text maxLen) (rfind commaSpaceSep text maxLen))
        with ⟨i, hm⟩ | ⟨k, hm⟩
    · rw [hm] at h
      replace h : (split fuel (text.drop (i+1)) maxLen).map (fun r => text.take i :: r)
          = some segs := h
      rw [Option.map_eq_some'] at h
      obtain ⟨rest, hrest, hsegs⟩ := h
      exact ⟨i, rest, hm, hrest, hsegs.symm⟩
    · exfalso
      have hk : k = 0 := by
        rcases max_choice (rfind nlSep text maxLen) (rfind commaSpaceSep text maxLen)
            with hc | hc <;> rw [hc] at hm
        · rcases rfind_shape nlSep text maxLen with h1 | ⟨j, hj, -, -⟩
          · rw [h1] at hm
            rw [Int.negSucc_eq] at hm
            omega
          · rw [hj] at hm
            exact absurd hm (by simp)
        · rcases rfind_shape commaSpaceSep text maxLen with h1 | ⟨j, hj, -, -⟩
          · rw [h1] at hm
            rw [Int.negSucc_eq] at hm
            omega
          · rw [hj] at hm
            exact absurd hm (by simp)
      subst hk
      rw [hm] at h
      replace h : (split fuel text maxLen).map (fun r => text.take (text.length - 1) :: r)
          = some segs := h
      rw [split_stuck hlen hm fuel] at h
      exact Option.noConfusion h
  · rw [if_neg hlen] at h
    exact Or.inl ⟨by omega, (Option.some.injEq _ _ ▸ h).symm⟩

/-- Claim C4: for every input text and every configured maximum length, every
segment in a sequence returned by `split` has length at most that maximum. -/
theorem split_segments_bounded_C4 (fuel : Nat) (text : List Char) (maxLen : Nat)
    (segs : List (List Char)) (h : split fuel text maxLen = some segs) :
    ∀ seg ∈ segs, seg.length ≤ maxLen := by
  induction fuel generalizing text segs with
  | zero => exact absurd h (by simp [split])
  | succ n ih =>
    rcases split_succ_some h with ⟨hlt, rfl⟩ | ⟨hlen, i, rest, hmax, hrest, rfl⟩
    · intro seg hseg
      rw [List.mem_singleton] at hseg
      subst hseg
      omega
    · intro seg hseg
      rcases List.mem_cons.mp hseg with rfl | htail
      · obtain ⟨hie, -⟩ := max_rfind_ofNat hmax
        rw [List.length_take]
        omega
      · exact ih _ _ hrest seg htail

/-- Claim C4 witness: a concrete run of `split`. -/
theorem split_segments_bounded_C4_witness :
    (['a'] : List Char).length ≤ 2 ∧ (['b'] : List Char).length ≤ 2 :=
  ⟨split_segments_bounded_C4 2 ['a', '\n', 'b'] 2 [['a'], ['b']] rfl ['a'] (by simp),
   split_segments_bounded_C4 2 ['a', '\n', 'b'] 2 [['a'], ['b']] rfl ['b'] (by simp)⟩

/-- Claim C5: for every input text, concatenating the segments returned by
`split`, re-inserting the single separator character consumed at each cut
point (a newline or a comma), reproduces the original text exactly. -/
theorem split_reconstructs_C5 (fuel : Nat) (text : List Char) (maxLen : Nat)
    (segs : List (List Char)) (h : split fuel text maxLen = some segs) :
    ∃ cs : List Char, cs.length + 1 = segs.length ∧
      (∀ c ∈ cs, c = '\n' ∨ c = ',') ∧ interleave segs cs = text := by
  induction fuel generalizing text segs with
  | zero => exact absurd h (by simp [split])
  | succ n ih =>
    rcases split_succ_some h with ⟨hlt, rfl⟩ | ⟨hlen, i, rest, hmax, hrest, rfl⟩
    · exact ⟨[], by simp, by simp, rfl⟩
    · obtain ⟨cs', hlen', hmem', hint'⟩ := ih _ _ hrest
      obtain ⟨-, hi, hsepchar⟩ := max_rfind_ofNat hmax
      refine ⟨text.get ⟨i, hi⟩ :: cs', by simp [← hlen'], ?_, ?_⟩
      · intro c hc
        rcases List.mem_cons.mp hc with rfl | hc'
        · exact hsepchar
        · exact hmem' c hc'
      · show text.take i ++ text.get ⟨i, hi⟩ :: interleave rest cs' = text
        rw [hint']
        have hdrop : text.drop i = text.get ⟨i, hi⟩ :: text.drop (i+1) := by
          rw [List.get_eq_getElem]
          exact List.drop_eq_getElem_cons hi
        rw [← hdrop, List.take_append_drop]

/-- Claim C5 witness: a concrete reconstruction. -/
theorem split_reconstructs_C5_witness :
    ∃ cs : List Char, cs.length + 1 = ([['a'], ['b']] : List (List Char)).length ∧
      (∀ c ∈ cs, c = '\n' ∨ c = ',') ∧ interleave [['a'], ['b']] cs = ['a', '\n', 'b'] :=
  split_reconstructs_C5 2 ['a', '\n', 'b'] 2 [['a'], ['b']] rfl

/- A five-character text with no newline and no comma-space marker. -/
def noMarkerText : List Char := ['a', 'a', 'a', 'a', 'a']

/-- Claim C6 (refuted; the code has the bug): the claim says `split`
terminates with a naive hard cut on marker-free inputs of length at least
the maximum; in fact, on such inputs the recursion passes the unchanged
text to itself, so `split` never produces a result at any fuel (the Python
code recurses until `RecursionError`). -/
theorem split_no_marker_diverges_C6 :
    ∀ fuel : Nat, split fuel noMarkerText 3 = none :=
  split_stuck (by decide) (by decide)

/- ASCII digit character for a digit value. -/
def digitChar (d : Nat) : Char := Char.ofNat (48 + d)

/- Structural helper for the decimal representation (the first argument is
fuel that dominates the number of divisions by 10). -/
def decRepAux : Nat → Nat → List Char
  | 0, _ => []
  | fuel+1, n =>
    if n < 10 then [digitChar n] else decRepAux fuel (n / 10) ++ [digitChar (n % 10)]

/- Decimal representation of a natural number: models Python `str(mail_id)`
(bot.py line 174). -/
def decRepr (n : Nat) : List Char := decRepAux (n+1) n

def digitVal (c : Char) : Option Nat :=
  if 48 ≤ c.toNat ∧ c.toNat ≤ 57 then some (c.toNat - 48) else none

def parseDecAux : List Char → Nat → Option Nat
  | [], acc => some acc
  | c :: cs, acc =>
    match digitVal c with
    | none => none
    | some d => parseDecAux cs (acc * 10 + d)

/- Python `int(s)` on a non-negative decimal string: `none` models the
`ValueError` raised on a non-numeric string. -/
def parseDec (s : List Char) : Option Nat :=
  if s = [] then none else parseDecAux s 0

lemma digitVal_digitChar {d : Nat} (h : d < 10) : digitVal (digitChar d) = some d := by
  interval_cases d <;> decide

lemma parseDecAux_append (xs ys : List Char) (a : Nat) :
    parseDecAux (xs ++ ys) a =
      match parseDecAux xs a with
      | none => none
      | some b => parseDecAux ys b := by
  induction xs generalizing a with
  | nil => rfl
  | cons c cs ih =>
    simp only [List.cons_append, parseDecAux]
    cases hd : digitVal c with
    | none => rfl
    | some d => exact ih _

lemma decRepAux_parse {fuel : Nat} : ∀ {n : Nat}, n < fuel → ∀ a : Nat,
    parseDecAux (decRepAux fuel n) a = some (a * 10 ^ (decRepAux fuel n).length + n) := by
  induction fuel with
  | zero => omega
  | succ f ih =>
    intro n hn a
    by_cases h10 : n < 10
    · simp only [decRepAux, if_pos h10, parseDecAux, digitVal_digitChar h10,
        List.length_cons, List.length_nil]
      norm_num
    · simp only [decRepAux, if_neg h10]
      rw [parseDecAux_append]
      have hdiv : n / 10 < f := by
        have hlt : n / 10 < n := Nat.div_lt_self (by omega) (by omega)
        omega
      rw [ih hdiv a]
      simp only [parseDecAux, digitVal_digitChar (Nat.mod_lt n (show 0 < 10 by omega)),
        List.length_append, List.length_cons, List.length_nil]
      congr 1
      have hdm : n / 10 * 10 + n % 10 = n := by omega
      calc (a * 10 ^ (decRepAux f (n / 10)).length + n / 10) * 10 + n % 10
          = a * (10 ^ (decRepAux f (n / 10)).length * 10) + (n / 10 * 10 + n % 10) := by ring
        _ = a * 10 ^ ((decRepAux f (n / 10)).length + 1) + n := by rw [hdm, pow_succ]

lemma decRepr_ne_nil (n : Nat) : decRepr n ≠ [] := by
  unfold decRepr decRepAux
  by_cases h10 : n < 10
  · rw [if_pos h10]
    simp
  · rw [if_neg h10]
    simp

/- Round trip: `int(str(n)) = n`. -/
lemma parseDec_decRepr (n : Nat) : parseDec (decRepr n) = some n := by
  have h := decRepAux_parse (show n < n + 1 by omega) 0
  unfold parseDec
  rw [if_neg (decRepr_ne_nil n)]
  unfold decRepr at h ⊢
  rw [h]
  simp

/- ========== data model of the bot (src/bot.py) ========== -/

/- One attachment: a named byte blob, as written by `mail.write_attachments`
and reopened from the temporary directory. -/
structure Attachment where
  filename : List Char
  content : List Char
deriving DecidableEq

/- A parsed message as the bot consumes it from the mailparser library:
`subject`, `from_` (list of (display-name, address) pairs), the plain-text
and HTML body part lists, and the attachments. -/
structure Mail where
  subject : List Char
  from_ : List (List Char × List Char)
  text_plain : List (List Char)
  text_html : List (List Char)
  attachments : List Attachment
deriving DecidableEq

/- The configuration fields of `Bot.__init__` that the relay logic reads. -/
structure Config where
  last_uid : Nat
  read_only : Bool
  whitelist : List (List Char)
  chat : List Char
deriving DecidableEq

/- The mail-server collaborator as `get_emails` observes it: whether login
succeeds, the identifier list returned by `server.search(criteria)`, and the
result of `mailparser.parse_from_bytes` on each fetched message (`none`
models the `TypeError` that is swallowed). -/
structure MailEnv where
  loginOk : Bool
  search : List Nat
  parse : Nat → Option Mail

/- One outbound call to the Telegram collaborator. -/
inductive Dispatch where
  | sendMessage (chat : List Char) (text : List Char)
  | sendDocument (chat : List Char) (fileName : List Char) (content : List Char)
      (caption : Option (List Char))
deriving DecidableEq

/- The value stored in the `last_uid` field of the `.mnbs` state file:
`json.dump` writes either a JSON integer or a JSON string. -/
inductive StoredVal where
  | intVal (n : Nat)
  | strVal (s : List Char)
deriving DecidableEq

/- Python `int(...)` applied to the loaded JSON field. -/
def intOfStored : StoredVal → Option Nat
  | StoredVal.intVal n => some n
  | StoredVal.strVal s => parseDec s

/- The state-file part of `Bot.__init__` (bot.py lines 58-72), run only in
read-only mode.  Input: the `last_uid` read from the configuration (fallback
0) and the current `.mnbs` content (`none` = file absent).  Output `none`
models an uncaught exception from `int(...)`; otherwise the resulting
`self.last_uid` together with the file content written during init (the
absent-file branch creates the file with integer 0 and keeps the configured
value in memory). -/
def initLastUid (read_only : Bool) (configLastUid : Nat) (stateFile : Option StoredVal) :
    Option (Nat × Option StoredVal) :=
  if read_only then
    match stateFile with
    | none => some (configLastUid, some (StoredVal.intVal 0))
    | some v =>
      match intOfStored v with
      | none => none
      | some s => some (max configLastUid s, none)
  else
    some (configLastUid, none)

def authFailLog : List Char :=
  ['C', 'o', 'u', 'l', 'd', ' ', 'n', 'o', 't', ' ',
   'a', 'u', 't', 'h', 'e', 'n', 't', 'i', 'c', 'a', 't', 'e', '.']

/- `Bot.get_emails` (bot.py lines 79-103): on a login failure the error is
logged and the generator yields nothing; otherwise every identifier returned
by the search is fetched, those at or below the watermark are skipped, and
each remaining message that parses is yielded with its identifier. -/
def get_emails (env : MailEnv) (last_uid : Nat) : List (List Char) × List (Mail × Nat) :=
  if env.loginOk then
    ([], env.search.filterMap (fun uid =>
      if uid ≤ last_uid then none
      else (env.parse uid).map (fun mail => (mail, uid))))
  else
    ([authFailLog], [])

def fromLit : List Char := [' ', 'f', 'r', 'o', 'm', ' ']

def htmlExt : List Char := ['.', 'h', 't', 'm', 'l']

def txtExt : List Char := ['.', 't', 'x', 't']

/- `"\n".join(parts)`. -/
def joinNL (parts : List (List Char)) : List Char := List.intercalate ['\n'] parts

/- The documents sent for the attachments (bot.py lines 147-156); the
`if mail.attachments:` guard is behaviourally the map over the attachment
list (an empty list produces no calls). -/
def attDispatches (cfg : Config) (mail : Mail) : List Dispatch :=
  mail.attachments.map (fun a => Dispatch.sendDocument cfg.chat a.filename a.content none)

/- `Bot.send_mail` (bot.py lines 105-158).  Returns the boolean result and
the ordered dispatch calls made; `none` models an uncaught exception
(`IndexError` on an empty `mail.from_`, or the `RecursionError` from a
diverging `split`, whose fuel is threaded through). -/
def send_mail (fuel : Nat) (cfg : Config) (mail : Mail) : Option (Bool × List Dispatch) :=
  match mail.from_ with
  | [] => none
  | (fromName, fromAddr) :: _ =>
    if 0 < cfg.whitelist.length ∧ fromAddr ∉ cfg.whitelist then
      some (false, [])
    else
      let senderEmail := fromName ++ ' ' :: fromAddr
      let title := mail.subject ++ fromLit ++ senderEmail
      if mail.text_html ≠ [] then
        some (true,
          Dispatch.sendDocument cfg.chat (title ++ htmlExt) (joinNL mail.text_html)
            (some title) :: attDispatches cfg mail)
      else if mail.text_plain ≠ [] then
        let message := joinNL mail.text_plain
        match split fuel message 4091 with
        | none => none
        | some segs =>
          match segs with
          | [] => none
          | firstSeg :: _ =>
            some (true,
              Dispatch.sendMessage cfg.chat firstSeg ::
                (if 2 ≤ message.length then
                  [Dispatch.sendDocument cfg.chat (title ++ txtExt)
                    (title ++ '\n' :: '\n' :: message) (some title)]
                else []) ++ attDispatches cfg mail)
      else
        some (true, attDispatches cfg mail)

/- The per-message loop of `Bot.run` (bot.py lines 168-177): returns the
dispatch calls in order, the final `last_uid` (`none` when no message was
processed) and the number of 5-second pacing sleeps; `none` models a crash
of `send_mail` aborting the whole run. -/
def runLoop (fuel : Nat) (cfg : Config) : List (Mail × Nat) →
    Option (List Dispatch × Option Nat × Nat)
  | [] => some ([], none, 0)
  | (mail, mailId) :: rest =>
    match send_mail fuel cfg mail with
    | none => none
    | some (sent, ds) =>
      match runLoop fuel cfg rest with
      | none => none
      | some (ds', lastUid, sleeps) =>
        some (ds ++ ds', some (lastUid.getD mailId), sleeps + (if sent then 1 else 0))

structure RunResult where
  dispatches : List Dispatch
  persisted : Option StoredVal
  sleeps : Nat
deriving DecidableEq

/- `Bot.run` (bot.py lines 160-186): drive the loop over `get_emails`; at
the end, if some message was processed and the bot is in read-only mode,
persist `{"last_uid": str(mail_id)}` — note the value written is the
decimal *string* of the identifier. -/
def run (fuel : Nat) (cfg : Config) (env : MailEnv) : Option RunResult :=
  match runLoop fuel cfg (get_emails env cfg.last_uid).2 with
  | none => none
  | some (ds, lastUid, sleeps) =>
    some { dispatches := ds
           persisted :=
             match lastUid with
             | some i =>
               if cfg.read_only then some (StoredVal.strVal (decRepr i)) else none
             | none => none
           sleeps := sleeps }

/- ========== shared lemmas about the run ========== -/

lemma get_emails_mem {env : MailEnv} {u : Nat} {mail : Mail} {i : Nat}
    (h : (mail, i) ∈ (get_emails env u).2) : u < i := by
  by_cases hl : env.loginOk
  · simp only [get_emails, if_pos hl, List.mem_filterMap] at h
    obtain ⟨uid, -, heq⟩ := h
    by_cases hle : uid ≤ u
    · rw [if_pos hle] at heq
      exact Option.noConfusion heq
    · rw [if_neg hle] at heq
      rw [Option.map_eq_some'] at heq
      obtain ⟨m, -, hpair⟩ := heq
      have huid : uid = i := congrArg Prod.snd hpair
      omega
  · simp [get_emails, hl] at h

lemma runLoop_lastUid {fuel : Nat} {cfg : Config} :
    ∀ {l : List (Mail × Nat)} {ds : List Dispatch} {i sl : Nat},
      runLoop fuel cfg l = some (ds, some i, sl) → ∃ mail, (mail, i) ∈ l := by
  intro l
  induction l with
  | nil =>
    intro ds i sl h
    simp [runLoop] at h
  | cons p rest ih =>
    intro ds i sl h
    obtain ⟨mail0, id0⟩ := p
    simp only [runLoop] at h
    cases hsm : send_mail fuel cfg mail0 with
    | none =>
      rw [hsm] at h
      exact Option.noConfusion h
    | some sd =>
      obtain ⟨sent, ds0⟩ := sd
      rw [hsm] at h
      cases hrl : runLoop fuel cfg rest with
      | none =>
        rw [hrl] at h
        exact Option.noConfusion h
      | some t =>
        obtain ⟨ds', lu', sl'⟩ := t
        rw [hrl] at h
        simp only [Option.some.injEq, Prod.mk.injEq] at h
        obtain ⟨-, h2, -⟩ := h
        cases lu' with
        | none =>
          rw [Option.getD_none] at h2
          subst h2
          exact ⟨mail0, List.mem_cons_self _ _⟩
        | some j =>
          rw [Option.getD_some] at h2
          subst h2
          obtain ⟨m, hm⟩ := ih hrl
          exact ⟨m, List.mem_cons_of_mem _ hm⟩

/- A persisted value is always the decimal string of an identifier that was
fetched in this very run, hence strictly above the loaded watermark. -/
lemma run_persisted_shape {fuel : Nat} {cfg : Config} {env : MailEnv}
    {r : RunResult} {v : StoredVal} (hrun : run fuel cfg env = some r)
    (hp : r.persisted = some v) :
    ∃ i : Nat, v = StoredVal.strVal (decRepr i) ∧ cfg.last_uid < i := by
  unfold run at hrun
  cases hrl : runLoop fuel cfg (get_emails env cfg.last_uid).2 with
  | none =>
    rw [hrl] at hrun
    exact Option.noConfusion hrun
  | some t =>
    obtain ⟨ds, lastUid, sleeps⟩ := t
    rw [hrl] at hrun
    cases lastUid with
    | none =>
      replace hrun : some (RunResult.mk ds none sleeps) = some r := hrun
      rw [← Option.some.inj hrun] at hp
      exact Option.noConfusion hp
    | some i =>
      replace hrun : some (RunResult.mk ds
          (if cfg.read_only then some (StoredVal.strVal (decRepr i)) else none)
          sleeps) = some r := hrun
      rw [← Option.some.inj hrun] at hp
      replace hp :
          (if cfg.read_only then some (StoredVal.strVal (decRepr i)) else none)
            = some v := hp
      by_cases hro : cfg.read_only
      · rw [if_pos hro] at hp
        obtain ⟨m, hm⟩ := runLoop_lastUid hrl
        exact ⟨i, (Option.some.inj hp).symm, get_emails_mem hm⟩
      · rw [if_neg hro] at hp
        exact Option.noConfusion hp

lemma whitelist_pass {cfg : Config} {fromAddr : List Char}
    (hwl : cfg.whitelist = [] ∨ fromAddr ∈ cfg.whitelist) :
    ¬(0 < cfg.whitelist.length ∧ fromAddr ∉ cfg.whitelist) := by
  rcases hwl with h1 | h1
  · rw [h1]
    simp
  · rintro ⟨-, hno⟩
    exact hno h1

/- ========== concrete sample values used by the witnesses ========== -/

def sampleMail : Mail :=
  { subject := [], from_ := [([], [])], text_plain := [], text_html := [], attachments := [] }

def cfgC1 : Config := { last_uid := 5, read_only := true, whitelist := [], chat := [] }

def envC1 : MailEnv :=
  { loginOk := true, search := [3, 6, 7],
    parse := fun uid => if uid = 3 ∨ uid = 6 ∨ uid = 7 then some sampleMail else none }

def cfgC2 : Config := { last_uid := 0, read_only := true, whitelist := [['w']], chat := [] }

def mailC2 : Mail :=
  { subject := [], from_ := [([], ['x'])], text_plain := [], text_html := [], attachments := [] }

def envC2 : MailEnv :=
  { loginOk := true, search := [4], parse := fun uid => if uid = 4 then some mailC2 else none }

def cfgC7 : Config := { last_uid := 0, read_only := false, whitelist := [], chat := ['c'] }

def mailC7 : Mail :=
  { subject := ['s'], from_ := [(['n'], ['a'])], text_plain := [['p']],
    text_html := [['h']], attachments := [] }

def cfgC8 : Config := { last_uid := 0, read_only := false, whitelist := [], chat := [] }

def envC8 : MailEnv := { loginOk := false, search := [], parse := fun _ => none }

def cfgC9 : Config := { last_uid := 0, read_only := true, whitelist := [], chat := [] }

def envC9 : MailEnv :=
  { loginOk := true, search := [7], parse := fun uid => if uid = 7 then some sampleMail else none }

/- ========== the claims ========== -/

/-- Claim C1: for a run starting with watermark 5 where the search returns
identifiers 3, 6, 7, `get_emails` yields exactly the messages with
identifiers 6 and 7 (every yielded identifier is strictly above the
watermark), and after processing, the persisted watermark equals 7. -/
theorem run_fetch_persist_C1 (fuel : Nat) (cfg : Config) (env : MailEnv)
    (m6 m7 : Mail) (r6 r7 : Bool × List Dispatch)
    (hlog : env.loginOk = true) (hs : env.search = [3, 6, 7])
    (h6 : env.parse 6 = some m6) (h7 : env.parse 7 = some m7)
    (hc : cfg.last_uid = 5) (hro : cfg.read_only = true)
    (hs6 : send_mail fuel cfg m6 = some r6) (hs7 : send_mail fuel cfg m7 = some r7) :
    (get_emails env cfg.last_uid).2 = [(m6, 6), (m7, 7)] ∧
    ∃ ds sl, run fuel cfg env = some ⟨ds, some (StoredVal.strVal (decRepr 7)), sl⟩ := by
  have hge : (get_emails env cfg.last_uid).2 = [(m6, 6), (m7, 7)] := by
    rw [hc]
    simp [get_emails, hlog, hs, h6, h7]
  refine ⟨hge, ?_⟩
  obtain ⟨sent6, ds6⟩ := r6
  obtain ⟨sent7, ds7⟩ := r7
  unfold run
  rw [hge]
  simp only [runLoop, hs6, hs7, Option.getD_none, Option.getD_some, hro, if_true]
  exact ⟨_, _, rfl⟩

/-- Claim C1 witness: a concrete environment with watermark 5 and search
result 3, 6, 7. -/
theorem run_fetch_persist_C1_witness :
    (get_emails envC1 5).2 = [(sampleMail, 6), (sampleMail, 7)] ∧
    ∃ ds sl, run 1 cfgC1 envC1 = some ⟨ds, some (StoredVal.strVal (decRepr 7)), sl⟩ :=
  run_fetch_persist_C1 1 cfgC1 envC1 sampleMail sampleMail (true, []) (true, [])
    rfl rfl (by decide) (by decide) rfl rfl (by decide) (by decide)

/-- Claim C2: a message whose sender is not in the non-empty whitelist
produces no dispatch call, `send_mail` returns false (so no pacing sleep),
and the watermark still advances to that message's identifier. -/
theorem whitelist_skip_C2 (fuel : Nat) (cfg : Config) (mail : Mail)
    (fromName fromAddr : List Char) (others : List (List Char × List Char))
    (hf : mail.from_ = (fromName, fromAddr) :: others)
    (hw : cfg.whitelist ≠ []) (hna : fromAddr ∉ cfg.whitelist) :
    send_mail fuel cfg mail = some (false, []) ∧
    (∀ i : Nat, runLoop fuel cfg [(mail, i)] = some ([], some i, 0)) ∧
    (∀ (env : MailEnv) (i : Nat), cfg.read_only = true →
      (get_emails env cfg.last_uid).2 = [(mail, i)] →
      run fuel cfg env = some ⟨[], some (StoredVal.strVal (decRepr i)), 0⟩) := by
  have hsend : send_mail fuel cfg mail = some (false, []) := by
    simp only [send_mail, hf]
    rw [if_pos ⟨List.length_pos.mpr hw, hna⟩]
  have hloop : ∀ i : Nat, runLoop fuel cfg [(mail, i)] = some ([], some i, 0) := by
    intro i
    simp [runLoop, hsend]
  refine ⟨hsend, hloop, ?_⟩
  intro env i hro hge
  unfold run
  rw [hge, hloop i]
  simp [hro]

/-- Claim C2 witness: a concrete non-whitelisted sender. -/
theorem whitelist_skip_C2_witness :
    send_mail 1 cfgC2 mailC2 = some (false, []) ∧
    runLoop 1 cfgC2 [(mailC2, 4)] = some ([], some 4, 0) ∧
    run 1 cfgC2 envC2 = some ⟨[], some (StoredVal.strVal (decRepr 4)), 0⟩ := by
  have h := whitelist_skip_C2 1 cfgC2 mailC2 [] ['x'] [] rfl (by decide) (by decide)
  exact ⟨h.1, h.2.1 4, h.2.2 envC2 4 rfl (by decide)⟩

/-- Claim C3: the persisted watermark is monotonically non-decreasing across
runs: the loaded watermark is the maximum of the configured fallback and the
previously stored value (whether stored as an integer or as the decimal
string a previous run wrote), only identifiers strictly greater than the
loaded watermark are yielded, and any value persisted at run end is the
decimal string of such an identifier, hence never below the loaded value. -/
theorem watermark_monotone_C3 :
    (∀ c n : Nat, initLastUid true c (some (StoredVal.intVal n)) = some (max c n, none)) ∧
    (∀ c n : Nat,
      initLastUid true c (some (StoredVal.strVal (decRepr n))) = some (max c n, none)) ∧
    (∀ (env : MailEnv) (u : Nat) (mail : Mail) (i : Nat),
      (mail, i) ∈ (get_emails env u).2 → u < i) ∧
    (∀ (fuel : Nat) (cfg : Config) (env : MailEnv) (r : RunResult) (v : StoredVal),
      run fuel cfg env = some r → r.persisted = some v →
      ∃ i : Nat, v = StoredVal.strVal (decRepr i) ∧ cfg.last_uid < i) := by
  refine ⟨?_, ?_, ?_, ?_⟩
  · intro c n
    simp [initLastUid, intOfStored]
  · intro c n
    simp [initLastUid, intOfStored, parseDec_decRepr]
  · intro env u mail i h
    exact get_emails_mem h
  · intro fuel cfg env r v hrun hp
    exact run_persisted_shape hrun hp

/-- Claim C3 witness: the load, fetch and persist parts at concrete inputs. -/
theorem watermark_monotone_C3_witness :
    initLastUid true 2 (some (StoredVal.intVal 9)) = some (max 2 9, none) ∧
    initLastUid true 2 (some (StoredVal.strVal (decRepr 9))) = some (max 2 9, none) ∧
    (5 : Nat) < 7 ∧
    (∃ i : Nat, StoredVal.strVal (decRepr 7) = StoredVal.strVal (decRepr i) ∧ (5 : Nat) < i) :=
  ⟨watermark_monotone_C3.1 2 9, watermark_monotone_C3.2.1 2 9,
   watermark_monotone_C3.2.2.1 envC1 5 sampleMail 7 (by decide),
   watermark_monotone_C3.2.2.2 1 cfgC1 envC1
     ⟨[], some (StoredVal.strVal (decRepr 7)), 2⟩ (StoredVal.strVal (decRepr 7))
     (by decide) rfl⟩

/-- Claim C7: for a whitelisted message with at least one HTML body part and
at least one plain-text body part, only the HTML path is dispatched — one
captioned document whose content is the newline-joined HTML parts — and the
plain-text path is never invoked: no send_message call occurs (and the only
further dispatches are the attachment documents). -/
theorem html_over_plain_C7 (fuel : Nat) (cfg : Config) (mail : Mail)
    (fromName fromAddr : List Char) (others : List (List Char × List Char))
    (hf : mail.from_ = (fromName, fromAddr) :: others)
    (hwl : cfg.whitelist = [] ∨ fromAddr ∈ cfg.whitelist)
    (hh : mail.text_html ≠ []) (hp : mail.text_plain ≠ []) :
    send_mail fuel cfg mail = some (true,
      Dispatch.sendDocument cfg.chat
        ((mail.subject ++ fromLit ++ (fromName ++ ' ' :: fromAddr)) ++ htmlExt)
        (joinNL mail.text_html)
        (some (mail.subject ++ fromLit ++ (fromName ++ ' ' :: fromAddr)))
        :: attDispatches cfg mail) ∧
    (∀ c t : List Char, Dispatch.sendMessage c t ∉
      (Dispatch.sendDocument cfg.chat
        ((mail.subject ++ fromLit ++ (fromName ++ ' ' :: fromAddr)) ++ htmlExt)
        (joinNL mail.text_html)
        (some (mail.subject ++ fromLit ++ (fromName ++ ' ' :: fromAddr)))
        :: attDispatches cfg mail)) := by
  constructor
  · simp only [send_mail, hf]
    rw [if_neg (whitelist_pass hwl), if_pos hh]
  · intro c t hmem
    rcases List.mem_cons.mp hmem with heq | hmem'
    · exact Dispatch.noConfusion heq
    · simp only [attDispatches, List.mem_map] at hmem'
      obtain ⟨a, -, ha⟩ := hmem'
      exact Dispatch.noConfusion ha

/-- Claim C7 witness: a concrete message with one HTML and one plain part. -/
theorem html_over_plain_C7_witness :
    send_mail 1 cfgC7 mailC7 = some (true,
      [Dispatch.sendDocument ['c']
        ((['s'] ++ fromLit ++ (['n'] ++ ' ' :: ['a'])) ++ htmlExt)
        (joinNL [['h']])
        (some (['s'] ++ fromLit ++ (['n'] ++ ' ' :: ['a'])))]) ∧
    Dispatch.sendMessage ['c'] ['p'] ∉
      [Dispatch.sendDocument ['c']
        ((['s'] ++ fromLit ++ (['n'] ++ ' ' :: ['a'])) ++ htmlExt)
        (joinNL [['h']])
        (some (['s'] ++ fromLit ++ (['n'] ++ ' ' :: ['a'])))] := by
  have h := html_over_plain_C7 1 cfgC7 mailC7 ['n'] ['a'] [] rfl (Or.inl rfl)
    (by decide) (by decide)
  exact ⟨h.1, h.2 ['c'] ['p']⟩

/-- Claim C8: when login fails with an authentication error, the failure is
logged, `get_emails` yields the empty sequence, the run completes without
processing any message, and the persisted watermark is unchanged (nothing
is written). -/
theorem auth_failure_graceful_C8 (fuel : Nat) (cfg : Config) (env : MailEnv)
    (h : env.loginOk = false) :
    get_emails env cfg.last_uid = ([authFailLog], []) ∧
    run fuel cfg env = some ⟨[], none, 0⟩ := by
  have hge : get_emails env cfg.last_uid = ([authFailLog], []) := by
    simp [get_emails, h]
  refine ⟨hge, ?_⟩
  unfold run
  rw [show (get_emails env cfg.last_uid).2 = [] from by rw [hge]]
  rfl

/-- Claim C8 witness: a concrete environment whose login fails. -/
theorem auth_failure_graceful_C8_witness :
    get_emails envC8 0 = ([authFailLog], []) ∧ run 1 cfgC8 envC8 = some ⟨[], none, 0⟩ :=
  auth_failure_graceful_C8 1 cfgC8 envC8 rfl

/-- Claim C9 counterexample: the claim says the state file stores the last
processed identifier as an integer and that `load()` returns 0 when the file
is absent.  With a configured fallback of 5 and an absent file, init keeps 5
(not 0) while creating the file with integer 0; and a run that processed
identifier 7 persists the decimal string "7", not the integer 7. -/
theorem state_file_counterexample_C9 :
    initLastUid true 5 none = some (5, some (StoredVal.intVal 0)) ∧
    (5 : Nat) ≠ 0 ∧
    run 1 cfgC9 envC9 = some ⟨[], some (StoredVal.strVal ['7']), 1⟩ ∧
    StoredVal.strVal ['7'] ≠ StoredVal.intVal 7 := by
  decide

/-- Claim C9 as amended: the state file's `last_uid` field holds the last
processed identifier; when the file is absent at startup, the loaded value
is the configured fallback (0 by default, so 0 on a fresh setup) and a new
state file containing integer 0 is created; a run that processed messages
persists the identifier as its decimal string, which a later load parses
back to the same integer. -/
theorem state_file_amended_C9 :
    (∀ c : Nat, initLastUid true c none = some (c, some (StoredVal.intVal 0))) ∧
    (∀ c i : Nat,
      initLastUid true c (some (StoredVal.strVal (decRepr i))) = some (max c i, none)) ∧
    (∀ (fuel : Nat) (cfg : Config) (env : MailEnv) (r : RunResult) (v : StoredVal),
      run fuel cfg env = some r → r.persisted = some v →
      ∃ i : Nat, v = StoredVal.strVal (decRepr i)) := by
  refine ⟨fun c => rfl, ?_, ?_⟩
  · intro c i
    simp [initLastUid, intOfStored, parseDec_decRepr]
  · intro fuel cfg env r v hrun hp
    obtain ⟨i, hv, -⟩ := run_persisted_shape hrun hp
    exact ⟨i, hv⟩

/-- Claim C9 amended witness: the three parts at concrete inputs. -/
theorem state_file_amended_C9_witness :
    initLastUid true 5 none = some (5, some (StoredVal.intVal 0)) ∧
    initLastUid true 3 (some (StoredVal.strVal (decRepr 8))) = some (max 3 8, none) ∧
    (∃ i : Nat, StoredVal.strVal (decRepr 7) = StoredVal.strVal (decRepr i)) :=
  ⟨state_file_amended_C9.1 5, state_file_amended_C9.2.1 3 8,
   state_file_amended_C9.2.2 1 cfgC9 envC9
     ⟨[], some (StoredVal.strVal (decRepr 7)), 1⟩ (StoredVal.strVal (decRepr 7))
     (by decide) rfl⟩

/-- Claim C10: a whitelisted message with no HTML part, no plain-text part
and no attachments produces zero dispatch calls, yet `send_mail` returns
true, so the pacing sleep still fires and the watermark still advances to
that message's identifier. -/
theorem empty_mail_true_C10 (fuel : Nat) (cfg : Config) (mail : Mail)
    (fromName fromAddr : List Char) (others : List (List Char × List Char))
    (hf : mail.from_ = (fromName, fromAddr) :: others)
    (hwl : cfg.whitelist = [] ∨ fromAddr ∈ cfg.whitelist)
    (hh : mail.text_html = []) (hp : mail.text_plain = []) (ha : mail.attachments = []) :
    send_mail fuel cfg mail = some (true, []) ∧
    (∀ i : Nat, runLoop fuel cfg [(mail, i)] = some ([], some i, 1)) ∧
    (∀ (env : MailEnv) (i : Nat), cfg.read_only = true →
      (get_emails env cfg.last_uid).2 = [(mail, i)] →
      run fuel cfg env = some ⟨[], some (StoredVal.strVal (decRepr i)), 1⟩) := by
  have hsend : send_mail fuel cfg mail = some (true, []) := by
    simp only [send_mail, hf]
    rw [if_neg (whitelist_pass hwl),
      if_neg (show ¬mail.text_html ≠ [] from fun hne => hne hh),
      if_neg (show ¬mail.text_plain ≠ [] from fun hne => hne hp)]
    simp [attDispatches, ha]
  have hloop : ∀ i : Nat, runLoop fuel cfg [(mail, i)] = some ([], some i, 1) := by
    intro i
    simp [runLoop, hsend]
  refine ⟨hsend, hloop, ?_⟩
  intro env i hro hge
  unfold run
  rw [hge, hloop i]
  simp [hro]

/-- Claim C10 witness: a concrete whitelisted message with empty bodies and
no attachments. -/
theorem empty_mail_true_C10_witness :
    send_mail 1 cfgC9 sampleMail = some (true, []) ∧
    runLoop 1 cfgC9 [(sampleMail, 7)] = some ([], some 7, 1) ∧
    run 1 cfgC9 envC9 = some ⟨[], some (StoredVal.strVal (decRepr 7)), 1⟩ := by
  have h := empty_mail_true_C10 1 cfgC9 sampleMail [] [] [] rfl (Or.inl rfl) rfl rfl rfl
  exact ⟨h.1, h.2.1 7, h.2.2 envC9 7 rfl (by decide)⟩
